import Mathlib

/-!
Verification of the PDF-to-image conversion pipeline of this repository.

The development shallowly embeds the page-range parsers, the range
coalescer, the output-normalization loop and the orchestration logic of
`src/converter.ts` (the pdf2pic-based converter wired to the server and
CLI), the fast converter in `src/converter-fast.ts`, and the
poppler-based converter (`src/converter-poppler.ts`, exercised by
`tests/converter.test.ts`).

Modelling conventions:
* JavaScript strings are modelled as `List Char`; JavaScript numbers as
  exact integers (`Int`/`Nat`), which agree with the source on all page
  numbers that fit a double.
* Filesystem and child-process effects are passed explicitly: a
  directory is an association list from file name to an abstract content
  tag, and each converter takes an environment describing the outcomes
  of the external calls it performs.
* Concurrently completing page tasks are modelled by quantifying over
  the order in which their completions are observed.
-/

namespace PdfToImage

/-! ### JavaScript string primitives -/

/-- Whitespace recognised by JavaScript `String.prototype.trim` (ASCII part;
the selectors in this code base contain only spaces and tabs). -/
def jsWhitespace (c : Char) : Bool :=
  c = ' ' || c = '\t' || c = '\n' || c = '\r' || c = Char.ofNat 11 || c = Char.ofNat 12

/-- Model of `s.trim()`: strip leading and trailing whitespace. -/
def trimList (l : List Char) : List Char :=
  ((l.dropWhile jsWhitespace).reverse.dropWhile jsWhitespace).reverse

/-- Model of `s.split(sep)` for a one-character separator: every occurrence
of `sep` splits, empty pieces are kept, and the empty string yields one
empty piece. -/
def splitOnChar (sep : Char) : List Char → List (List Char)
  | [] => [[]]
  | c :: cs =>
    let r := splitOnChar sep cs
    if c = sep then [] :: r
    else (c :: r.headD []) :: r.tail

/-! ### JavaScript `parseInt` -/

def digitVal (c : Char) : Nat := c.toNat - '0'.toNat

def digitsToNat (ds : List Char) : Nat :=
  ds.foldl (fun a c => a * 10 + digitVal c) 0

def isHexDigitJs (c : Char) : Bool :=
  c.isDigit || ('a' ≤ c && c ≤ 'f') || ('A' ≤ c && c ≤ 'F')

def hexDigitVal (c : Char) : Nat :=
  if c.isDigit then digitVal c
  else if 'a' ≤ c then c.toNat - 'a'.toNat + 10
  else c.toNat - 'A'.toNat + 10

def hexToNat (ds : List Char) : Nat :=
  ds.foldl (fun a c => a * 16 + hexDigitVal c) 0

/-- Longest decimal-digit run at the start of the input; `none` when there is
no digit, mirroring `parseInt` returning `NaN`. -/
def decDigitsParse (l : List Char) : Option Nat :=
  let ds := l.takeWhile Char.isDigit
  if ds.isEmpty then none else some (digitsToNat ds)

/-- Magnitude part of `parseInt(s)` (radix autodetection): a `0x`/`0X` head
switches to hexadecimal, otherwise the leading decimal run is taken and
trailing garbage is ignored. -/
def jsParseIntAbs (l : List Char) : Option Nat :=
  match l with
  | c0 :: c1 :: rest =>
    if c0 = '0' ∧ (c1 = 'x' ∨ c1 = 'X') then
      let ds := rest.takeWhile isHexDigitJs
      if ds.isEmpty then none else some (hexToNat ds)
    else decDigitsParse l
  | _ => decDigitsParse l

/-- Optional sign at the head of the input: returns the sign and the rest. -/
def jsParseIntSign (l : List Char) : Bool × List Char :=
  match l with
  | c :: r => if c = '-' then (true, r) else if c = '+' then (false, r) else (false, l)
  | [] => (false, [])

/-- Model of JavaScript `parseInt(s)` (radix unspecified): skip leading
whitespace, read an optional sign, then the number; `none` models `NaN`. -/
def jsParseInt (l : List Char) : Option Int :=
  let l2 := l.dropWhile jsWhitespace
  let sr := jsParseIntSign l2
  (jsParseIntAbs sr.2).map (fun n => if sr.1 then -(n : Int) else (n : Int))

/-! ### Deduplication and sorting

`[...new Set(pages)]` keeps the first occurrence of each element in
insertion order; `.sort((a, b) => a - b)` then sorts numerically
ascending. Which sorting algorithm the runtime uses is unobservable here
because the input is already duplicate-free, so any sorted permutation
is the same list; we use insertion sort. -/

def jsSetDedupAux (seen : List Int) : List Int → List Int
  | [] => []
  | a :: l => if a ∈ seen then jsSetDedupAux seen l else a :: jsSetDedupAux (a :: seen) l

/-- Model of `[...new Set(pages)]`. -/
def jsSetDedup (l : List Int) : List Int := jsSetDedupAux [] l

/-- Model of `.sort((a, b) => a - b)`. -/
def jsSortAsc (l : List Int) : List Int := l.insertionSort (· ≤ ·)

/-- Model of `[...new Set(pages)].sort((a, b) => a - b)`, the last line of
both throwing `parsePageRange` implementations and of the poppler one. -/
def dedupSort (l : List Int) : List Int := jsSortAsc (jsSetDedup l)

/-- The pages pushed by `for (let i = start; i <= end; i++) pages.push(i)`:
the integers from `s` to `e` inclusive, empty when `s > e`. -/
def intRangeIncl (s e : Int) : List Int :=
  (List.range (e + 1 - s).toNat).map (fun i : Nat => s + (i : Int))

/-! ### The throwing page-range parser (`src/converter.ts`, also duplicated
verbatim in `src/converter-fast.ts`) -/

/-- The three error messages thrown by `parsePageRange` in
`src/converter.ts` / `src/converter-fast.ts`, each carrying the offending
(trimmed) token exactly as interpolated into the `Error` message. -/
inductive ParseErr
  | invalidRangeFormat (tok : List Char)
  | invalidRange (tok : List Char)
  | invalidPageNumber (tok : List Char)
deriving DecidableEq, Repr

def ParseErr.token : ParseErr → List Char
  | invalidRangeFormat t => t
  | invalidRange t => t
  | invalidPageNumber t => t

/-- The interpolated `Error` message of each throw site. -/
def ParseErr.message : ParseErr → List Char
  | invalidRangeFormat t => ("Invalid page range format: ").toList ++ t
  | invalidRange t => ("Invalid page range: ").toList ++ t
  | invalidPageNumber t => ("Invalid page number: ").toList ++ t

/-- One loop iteration of `parsePageRange` (`src/converter.ts` lines
253-287): the pages contributed by a single comma-separated term, or the
error thrown on it. -/
def parseTermTs (part : List Char) : Except ParseErr (List Int) :=
  let trimmed := trimList part
  if '-' ∈ trimmed then
    let rangeParts := splitOnChar '-' trimmed
    if rangeParts.length ≠ 2 then .error (.invalidRangeFormat trimmed)
    else
      let startStr := trimList (rangeParts.headD [])
      let endStr := trimList (rangeParts.getD 1 [])
      if startStr.isEmpty || endStr.isEmpty then .error (.invalidRange trimmed)
      else
        match jsParseInt startStr, jsParseInt endStr with
        | some s, some e => .ok (intRangeIncl s e)
        | _, _ => .error (.invalidRange trimmed)
  else
    match jsParseInt trimmed with
    | some p => .ok [p]
    | none => .error (.invalidPageNumber trimmed)

/-- The `for (const part of parts)` push loop of `parsePageRange`: terms are
processed left to right, the first throw aborts, and the contributions are
concatenated in order. -/
def parsePartsTs : List (List Char) → Except ParseErr (List Int)
  | [] => .ok []
  | part :: rest =>
    match parseTermTs part with
    | .error e => .error e
    | .ok xs =>
      match parsePartsTs rest with
      | .error e => .error e
      | .ok ys => .ok (xs ++ ys)

/-- `parsePageRange` of `src/converter.ts` (and its verbatim copy in
`src/converter-fast.ts`): the exact literal `"all"` yields `[]` (the
all-pages sentinel), otherwise the comma-split terms are expanded,
deduplicated and sorted ascending. -/
def parsePageRangeTs (pageRange : List Char) : Except ParseErr (List Int) :=
  if pageRange = ("all").toList then .ok []
  else
    match parsePartsTs (splitOnChar ',' pageRange) with
    | .error e => .error e
    | .ok pages => .ok (dedupSort pages)

/-! ### The silent page-range parser (`src/converter-poppler.ts`) -/

/-- One loop iteration of the poppler `parsePageRange` (lines 633-647):
invalid tokens contribute nothing — this parser never throws. A hyphenated
term uses only `rangeParts[0]` and `rangeParts[1]`; a missing index
(`undefined`) and `NaN` are both rejected by its guard, modelled as
`none`. -/
def parseTermPoppler (part : List Char) : List Int :=
  let trimmed := trimList part
  if '-' ∈ trimmed then
    let rangeParts := (splitOnChar '-' trimmed).map (fun p => jsParseInt (trimList p))
    match rangeParts.getD 0 none, rangeParts.getD 1 none with
    | some s, some e => intRangeIncl s e
    | _, _ => []
  else
    match jsParseInt trimmed with
    | some p => [p]
    | none => []

/-- `parsePageRange` of `src/converter-poppler.ts`: total — unparseable
tokens are silently skipped. -/
def parsePageRangePoppler (pageRange : List Char) : List Int :=
  if pageRange = ("all").toList then []
  else dedupSort (((splitOnChar ',' pageRange).map parseTermPoppler).flatten)

end PdfToImage


namespace PdfToImage

/-! ### Range coalescer (`getRanges`, `src/converter-poppler.ts` lines 651-674) -/

/-- A contiguous page range as produced by `getRanges`. The source field
`end` is a Lean keyword, so it is modelled by `stop`. -/
structure PageRange where
  start : Int
  stop : Int
deriving DecidableEq, Repr

/-- The `for (let i = 1; ...)` loop of `getRanges`: `start` is the start of
the currently open range and `prev` the previously seen page; a
non-consecutive page closes the open range, and the trailing
`ranges.push({start, end: prev})` closes the last one. -/
def getRangesGo (start prev : Int) : List Int → List PageRange
  | [] => [⟨start, prev⟩]
  | c :: cs =>
    if c ≠ prev + 1 then ⟨start, prev⟩ :: getRangesGo c c cs
    else getRangesGo start c cs

/-- `getRanges` of `src/converter-poppler.ts`: sorts its input ascending
(`pages.sort((a, b) => a - b)` in place) and then coalesces maximal runs of
consecutive pages. -/
def getRanges (pages : List Int) : List PageRange :=
  match jsSortAsc pages with
  | [] => []
  | first :: rest => getRangesGo first first rest

/-- The pages covered by a list of ranges, in order: the `flatten` side of
the spec's round-trip property. -/
def flattenRanges (rs : List PageRange) : List Int :=
  (rs.map (fun r => intRangeIncl r.start r.stop)).flatten

/-! ### The fast direct-to-JPG converter (`convertDirectToJpg`,
`src/converter-fast.ts` lines 155-293) -/

/-- Fate of one page task inside `convertDirectToJpg`'s specific-pages
branch (lines 236-270): the pdf2pic call may reject (`convThrows`), resolve
without a path (`nullResult`, an early `return`), the Sharp re-encode may
throw (`sharpThrows`), or everything succeeds and the page is pushed. Every
failure is caught inside the batch lambda and only logged. -/
inductive PageOutcome
  | convThrows
  | nullResult
  | sharpThrows
  | success
deriving DecidableEq, Repr

def PageOutcome.isSuccess : PageOutcome → Bool
  | success => true
  | _ => false

/-- What one completed page task appends to `convertedPages` (and,
in the same uninterrupted step, to `jpgFiles`): the page number on
success, nothing otherwise. -/
def pushIfSuccess (outcome : Int → PageOutcome) (acc : List Int) (p : Int) : List Int :=
  if (outcome p).isSuccess then acc ++ [p] else acc

/-- The result of `convertDirectToJpg`. `imageCount` is
`jpgFiles.length`; since `jpgFiles.push` and `convertedPages.push` are
adjacent with no suspension point between them, both arrays always have
the same length and are modelled by the single list of successful pages. -/
structure FastResult where
  imageCount : Nat
  pagesConverted : List Int
  format : String
deriving DecidableEq, Repr

/-- The specific-pages branch of `convertDirectToJpg` (lines 230-272 plus
the result assembly at lines 274-281). `order` is the order in which the
page tasks of the concurrent batches complete — an arbitrary
interleaving, to be constrained to a permutation of the requested pages
in the theorems. The function is total: per-page errors are swallowed by
the `catch` at lines 266-269, and the result is built from whatever
succeeded, with `pagesConverted` sorted at the end. -/
def convertDirectToJpgSpecific (outcome : Int → PageOutcome) (order : List Int) : FastResult :=
  let convertedPages := order.foldl (pushIfSuccess outcome) []
  { imageCount := convertedPages.length
    pagesConverted := jsSortAsc convertedPages
    format := "jpg" }

/-! ### The pdf2pic converter (`convertPdfToImages`, `src/converter.ts`) -/

/-- Outcome of one `convert(pageNum, { responseType: "image" })` call:
the promise may reject, resolve to a result without a `path` (skipped
with a warning at lines 143-146), or resolve normally. -/
inductive PngOutcome
  | throws
  | invalid
  | ok
deriving DecidableEq, Repr

def PngOutcome.isThrows : PngOutcome → Bool
  | throws => true
  | _ => false

def PngOutcome.isOk : PngOutcome → Bool
  | ok => true
  | _ => false

/-- Conversion errors surfaced by the converters. -/
inductive ConvErr
  | parseFailed (e : ParseErr)
  | rasterizationFailed
  | sharpFailed (page : Int)
deriving DecidableEq, Repr

/-- Environment of effects for `convertPdfToImages` of `src/converter.ts`:
per-page pdf2pic outcomes, per-page Sharp outcomes, and the behaviour of
the `convert.bulk(-1)` call used for the all-pages sentinel. -/
structure TsEnv where
  png : Int → PngOutcome
  sharpOk : Int → Bool
  bulkThrows : Bool
  bulk : List Bool

/-- Observable effects of a `convertPdfToImages` call in `src/converter.ts`:
whether `fs.mkdir` was awaited and whether any rasterization was started. -/
structure TsTrace where
  mkdirCalled : Bool
  rasterized : Bool
deriving DecidableEq, Repr

/-- The `ConvertResult` of `src/converter.ts`: no format field there. -/
structure TsResult where
  imageCount : Nat
  pagesConverted : List Int
deriving DecidableEq, Repr

/-- The sequential PNG-to-JPG loop of `src/converter.ts` lines 141-212 over
`(pageNumber, hasValidPath)` pairs: an invalid pdf2pic result is skipped
(`continue`), a Sharp failure is re-thrown after cleanup and aborts the
whole call, and a successful page is pushed to `jpgFiles` and
`convertedPages`. Returns the pushed pages in loop order. -/
def jpgLoopTs (sharpOk : Int → Bool) : List (Int × Bool) → Except ConvErr (List Int)
  | [] => .ok []
  | (p, valid) :: rest =>
    if !valid then jpgLoopTs sharpOk rest
    else if sharpOk p then
      match jpgLoopTs sharpOk rest with
      | .error e => .error e
      | .ok ps => .ok (p :: ps)
    else .error (.sharpFailed p)

/-- `convertPdfToImages` of `src/converter.ts`: `fs.mkdir` runs first (line
76), then the page selector is parsed (line 81, a throw propagates), then
either the listed pages are converted (a rejected pdf2pic promise fails the
whole `Promise.all`) or `convert.bulk(-1)` runs, and finally the JPG loop
builds the result; `imageCount` is `jpgFiles.length`, which the loop keeps
equal to the length of `convertedPages`. -/
def convertTs (env : TsEnv) (pages : List Char) : TsTrace × Except ConvErr TsResult :=
  match parsePageRangeTs pages with
  | .error e => ({ mkdirCalled := true, rasterized := false }, .error (.parseFailed e))
  | .ok pageNumbers =>
    let tr : TsTrace := { mkdirCalled := true, rasterized := true }
    if pageNumbers.length > 0 then
      if pageNumbers.any (fun p => (env.png p).isThrows) then
        (tr, .error .rasterizationFailed)
      else
        match jpgLoopTs env.sharpOk (pageNumbers.map (fun p => (p, (env.png p).isOk))) with
        | .error e => (tr, .error e)
        | .ok converted => (tr, .ok { imageCount := converted.length, pagesConverted := converted })
    else
      if env.bulkThrows then (tr, .error .rasterizationFailed)
      else
        match jpgLoopTs env.sharpOk (env.bulk.enum.map (fun iv => ((iv.1 : Int) + 1, iv.2))) with
        | .error e => (tr, .error e)
        | .ok converted => (tr, .ok { imageCount := converted.length, pagesConverted := converted })

end PdfToImage

namespace PdfToImage

/-! ### The poppler converter (`convertPdfToImages`,
`src/converter-poppler.ts` lines 508-627) -/

/-- The two output formats of the poppler converter. -/
inductive ImgFormat
  | jpg
  | png
deriving DecidableEq, Repr

def ImgFormat.ext : ImgFormat → List Char
  | jpg => ("jpg").toList
  | png => ("png").toList

def ImgFormat.flag : ImgFormat → String
  | jpg => "-jpeg"
  | png => "-png"

/-- `pageNum.toString().padStart(3, "0")`. -/
def pad3 (n : Nat) : List Char :=
  let s := (toString n).toList
  List.replicate (3 - s.length) '0' ++ s

/-- The canonical output name `<basename>_page_<NNN>.<ext>` built at line
591. -/
def canonicalName (base : List Char) (fmt : ImgFormat) (n : Nat) : List Char :=
  base ++ ("_page_").toList ++ pad3 n ++ '.' :: fmt.ext

/-- Trailing page number of an engine output stem: the regex at line 588
(dash, then a nonempty digit group, then a dot and the extension, anchored
at the end) requires a nonempty digit run immediately preceded by a dash;
`parseInt` of the pure digit group is its decimal value. -/
def stemPageNum (stem : List Char) : Option Nat :=
  let rds := stem.reverse.takeWhile Char.isDigit
  if rds.isEmpty then none
  else
    match stem.reverse.drop rds.length with
    | c :: _ => if c = '-' then some (digitsToNat rds.reverse) else none
    | [] => none

/-- Match of the line-588 regex against `file` followed by
`parseInt(match[1])`: strip one of the two literal extensions `jpg`/`png`
and read the trailing dash-plus-digits of the stem. -/
def popplerMatch (file : List Char) : Option Nat :=
  let tryExt (ext : List Char) : Option Nat :=
    if ('.' :: ext).isSuffixOf file then
      stemPageNum (file.take (file.length - (ext.length + 1)))
    else none
  match tryExt (("jpg").toList) with
  | some n => some n
  | none => tryExt (("png").toList)

/-- A directory: file names with an abstract content tag. -/
abbrev Dir := List (List Char × Nat)

def lookupFile (name : List Char) : Dir → Option Nat
  | [] => none
  | e :: rest => if e.1 = name then some e.2 else lookupFile name rest

/-- POSIX `fs.rename(old, new)`: the entry moves to the new name,
silently replacing any existing entry at the new name. A missing source
would reject, but every rename performed by the normalization loop is on
a name present in its `readdir` snapshot. -/
def renameFile (dir : Dir) (oldName newName : List Char) : Dir :=
  match lookupFile oldName dir with
  | none => dir
  | some c => (dir.filter (fun e => e.1 ≠ oldName ∧ e.1 ≠ newName)) ++ [(newName, c)]

/-- The normalization loop of `src/converter-poppler.ts` lines 582-599:
iterate over the `readdir` snapshot `files`; skip files without the
expected extension or without the engine's `-<digits>` suffix; rename each
match to its canonical name (mutating `dir`) and push the new name and the
page number. Returns the final directory, `generatedFiles` and
`convertedPageNums` in iteration order. -/
def normalizeLoop (base : List Char) (fmt : ImgFormat) :
    List (List Char) → Dir → Dir × List (List Char) × List Int
  | [], dir => (dir, [], [])
  | file :: rest, dir =>
    if ('.' :: fmt.ext).isSuffixOf file then
      match popplerMatch file with
      | none => normalizeLoop base fmt rest dir
      | some n =>
        let newName := canonicalName base fmt n
        let dir2 := if file ≠ newName then renameFile dir file newName else dir
        let r := normalizeLoop base fmt rest dir2
        (r.1, newName :: r.2.1, (n : Int) :: r.2.2)
    else normalizeLoop base fmt rest dir

/-- Conversion options of the poppler converter that feed its command
line and parsing (its `outputDir` only shapes `outputPrefix`, which is
taken directly). -/
structure PopplerOpts where
  dpi : Nat
  quality : Nat
  pages : List Char
  fmt : ImgFormat

/-- Environment of effects for the poppler converter: the outcome of the
i-th `pdftoppm` invocation launched, and the directory contents observed
by `fs.readdir` after all invocations completed. -/
structure PopplerEnv where
  execOk : Nat → Bool
  dirAfterExec : Dir

/-- Observable effects of a poppler conversion: the awaited `fs.mkdir`,
the exact shell commands launched, and the directory after the renames. -/
structure PopplerTrace where
  mkdirCalled : Bool
  cmds : List String
  finalDir : Dir
deriving Repr

/-- The `ConvertResult` of `src/converter-poppler.ts`. -/
structure PopplerResult where
  imageCount : Nat
  pagesConverted : List Int
  fmt : ImgFormat
deriving DecidableEq, Repr

/-- A directory in which the canonical name `doc_page_001.jpg` already
exists (content tag 20) next to the engine output `doc-1.jpg` (content
tag 10), used to exercise the rename-collision behaviour. -/
def collisionDir : Dir :=
  [((("doc-1.jpg").toList), 10), ((("doc_page_001.jpg").toList), 20)]

/-- The command stem built at line 545: `pdftoppm ${formatFlag} ${jpegOpt}
-r ${dpi}` (with an empty `jpegOpt`, hence a double space, for png). -/
def popplerBaseCmd (fmt : ImgFormat) (quality dpi : Nat) : String :=
  let jpegOpt := if fmt = ImgFormat.jpg then "-jpegopt quality=" ++ toString quality else ""
  "pdftoppm " ++ fmt.flag ++ " " ++ jpegOpt ++ " -r " ++ toString dpi

/-- The all-pages command of line 554. -/
def popplerAllCmd (bc : String) (pdfPath outPref : String) : String :=
  bc ++ " \"" ++ pdfPath ++ "\" \"" ++ outPref ++ "\""

/-- The per-range command of line 567. -/
def popplerRangeCmd (bc : String) (r : PageRange) (pdfPath outPref : String) : String :=
  bc ++ " -f " ++ toString r.start ++ " -l " ++ toString r.stop ++
    " \"" ++ pdfPath ++ "\" \"" ++ outPref ++ "\""

/-- `convertPdfToImages` of `src/converter-poppler.ts`: `fs.mkdir` first
(line 532), then the total page-range parse, then one `pdftoppm` call for
all pages or one per coalesced range (in parallel; a failing invocation
rejects the `Promise.all` and the whole call). On success the
normalization loop renames the engine outputs and the result reports
`generatedFiles.length` and the sorted page numbers. -/
def convertPoppler (env : PopplerEnv) (pdfPath : String) (base : List Char)
    (outPref : String) (o : PopplerOpts) : PopplerTrace × Except ConvErr PopplerResult :=
  let pageNumbers := parsePageRangePoppler o.pages
  let bc := popplerBaseCmd o.fmt o.quality o.dpi
  let cmds :=
    if pageNumbers.length = 0 then [popplerAllCmd bc pdfPath outPref]
    else (getRanges pageNumbers).map (fun r => popplerRangeCmd bc r pdfPath outPref)
  if (List.range cmds.length).any (fun i => !(env.execOk i)) then
    ({ mkdirCalled := true, cmds := cmds, finalDir := env.dirAfterExec },
      .error .rasterizationFailed)
  else
    let r := normalizeLoop base o.fmt (env.dirAfterExec.map (fun e => e.1)) env.dirAfterExec
    ({ mkdirCalled := true, cmds := cmds, finalDir := r.1 },
      .ok { imageCount := r.2.1.length, pagesConverted := jsSortAsc r.2.2, fmt := o.fmt })

end PdfToImage


namespace PdfToImage

/-! ### Helper lemmas -/

theorem jsSetDedupAux_mem (x : Int) :
    ∀ (l seen : List Int), x ∈ jsSetDedupAux seen l ↔ x ∈ l ∧ x ∉ seen := by
  intro l
  induction l with
  | nil => intro seen; simp [jsSetDedupAux]
  | cons a l ih =>
    intro seen
    by_cases ha : a ∈ seen
    · simp only [jsSetDedupAux, if_pos ha, ih, List.mem_cons]
      constructor
      · rintro ⟨hx, hns⟩; exact ⟨Or.inr hx, hns⟩
      · rintro ⟨hx | hx, hns⟩
        · exact absurd (show x ∈ seen by rw [hx]; exact ha) hns
        · exact ⟨hx, hns⟩
    · simp only [jsSetDedupAux, if_neg ha, List.mem_cons, ih]
      constructor
      · rintro (rfl | ⟨hx, hns⟩)
        · exact ⟨Or.inl rfl, ha⟩
        · exact ⟨Or.inr hx, fun h => hns (Or.inr h)⟩
      · rintro ⟨rfl | hx, hns⟩
        · exact Or.inl rfl
        · by_cases hxa : x = a
          · exact Or.inl hxa
          · refine Or.inr ⟨hx, fun h => ?_⟩
            rcases h with h' | h'
            · exact hxa h'
            · exact hns h'

theorem jsSetDedupAux_nodup : ∀ (l seen : List Int), (jsSetDedupAux seen l).Nodup := by
  intro l
  induction l with
  | nil => intro seen; simp [jsSetDedupAux]
  | cons a l ih =>
    intro seen
    by_cases ha : a ∈ seen
    · simpa [jsSetDedupAux, if_pos ha] using ih seen
    · simp only [jsSetDedupAux, if_neg ha, List.nodup_cons]
      refine ⟨fun h => ?_, ih _⟩
      exact ((jsSetDedupAux_mem a l (a :: seen)).mp h).2 (List.mem_cons_self a seen)

theorem jsSetDedup_mem (x : Int) (l : List Int) : x ∈ jsSetDedup l ↔ x ∈ l := by
  simpa [jsSetDedup] using jsSetDedupAux_mem x l []

theorem jsSetDedup_nodup (l : List Int) : (jsSetDedup l).Nodup :=
  jsSetDedupAux_nodup l []

theorem jsSortAsc_sorted (l : List Int) : (jsSortAsc l).Sorted (· ≤ ·) :=
  List.sorted_insertionSort _ l

theorem jsSortAsc_perm (l : List Int) : List.Perm (jsSortAsc l) l :=
  List.perm_insertionSort _ l

theorem jsSortAsc_mem (x : Int) (l : List Int) : x ∈ jsSortAsc l ↔ x ∈ l :=
  (jsSortAsc_perm l).mem_iff

theorem jsSortAsc_length (l : List Int) : (jsSortAsc l).length = l.length :=
  (jsSortAsc_perm l).length_eq

theorem jsSortAsc_eq_self {l : List Int} (h : l.Sorted (· ≤ ·)) : jsSortAsc l = l :=
  List.Sorted.insertionSort_eq h

theorem jsSortAsc_nodup {l : List Int} (h : l.Nodup) : (jsSortAsc l).Nodup :=
  (jsSortAsc_perm l).nodup_iff.mpr h

theorem jsSortAsc_sorted_lt {l : List Int} (h : l.Nodup) :
    (jsSortAsc l).Sorted (· < ·) :=
  (jsSortAsc_sorted l).lt_of_le (jsSortAsc_nodup h)

theorem dedupSort_sorted_lt (l : List Int) : (dedupSort l).Sorted (· < ·) :=
  jsSortAsc_sorted_lt (jsSetDedup_nodup l)

theorem dedupSort_mem (x : Int) (l : List Int) : x ∈ dedupSort l ↔ x ∈ l := by
  rw [dedupSort, jsSortAsc_mem, jsSetDedup_mem]

theorem intRangeIncl_self (a : Int) : intRangeIncl a a = [a] := by
  have h : (a + 1 - a).toNat = 1 := by omega
  rw [intRangeIncl, h]
  simp [List.range_succ]

theorem intRangeIncl_nil_of_lt {a b : Int} (h : b < a) : intRangeIncl a b = [] := by
  have h0 : (b + 1 - a).toNat = 0 := by omega
  rw [intRangeIncl, h0]
  rfl

theorem intRangeIncl_concat {a b : Int} (h : a ≤ b + 1) :
    intRangeIncl a (b + 1) = intRangeIncl a b ++ [b + 1] := by
  have h1 : (b + 1 + 1 - a).toNat = (b + 1 - a).toNat + 1 := by omega
  rw [intRangeIncl, intRangeIncl, h1, List.range_succ, List.map_append, List.map_singleton]
  have h2 : a + ((b + 1 - a).toNat : Int) = b + 1 := by omega
  rw [h2]

theorem le_of_mem_intRangeIncl {a b x : Int} (h : x ∈ intRangeIncl a b) : a ≤ x := by
  simp only [intRangeIncl, List.mem_map, List.mem_range] at h
  obtain ⟨i, _, rfl⟩ := h
  omega

theorem splitOnChar_ne_nil (sep : Char) : ∀ l : List Char, splitOnChar sep l ≠ [] := by
  intro l
  cases l with
  | nil => simp [splitOnChar]
  | cons c cs =>
    simp only [splitOnChar]
    split <;> simp

theorem not_mem_of_mem_splitOnChar (sep : Char) :
    ∀ (l : List Char), ∀ p ∈ splitOnChar sep l, sep ∉ p := by
  intro l
  induction l with
  | nil =>
    intro p hp
    simp only [splitOnChar, List.mem_singleton] at hp
    simp [hp]
  | cons c cs ih =>
    intro p hp
    simp only [splitOnChar] at hp
    by_cases hc : c = sep
    · rw [if_pos hc] at hp
      rcases List.mem_cons.mp hp with rfl | hp
      · simp
      · exact ih p hp
    · rw [if_neg hc] at hp
      rcases List.mem_cons.mp hp with rfl | hp
      · intro hmem
        rcases List.mem_cons.mp hmem with rfl | hmem
        · exact hc rfl
        · rcases hr : splitOnChar sep cs with _ | ⟨h0, t⟩
          · exact splitOnChar_ne_nil sep cs hr
          · rw [hr] at hmem
            exact ih h0 (by rw [hr]; exact List.mem_cons_self _ _) (by simpa using hmem)
      · rcases hr : splitOnChar sep cs with _ | ⟨h0, t⟩
        · exact absurd hr (splitOnChar_ne_nil sep cs)
        · rw [hr] at hp
          exact ih p (by rw [hr]; exact List.mem_cons_of_mem _ (by simpa using hp))

theorem mem_of_mem_trimList {c : Char} {l : List Char} (h : c ∈ trimList l) : c ∈ l := by
  rw [trimList, List.mem_reverse] at h
  have h2 := (List.dropWhile_sublist _).subset h
  rw [List.mem_reverse] at h2
  exact (List.dropWhile_sublist _).subset h2

theorem jsParseInt_nonneg {l : List Char} (hne : '-' ∉ l) {n : Int}
    (h : jsParseInt l = some n) : 0 ≤ n := by
  have hne2 : '-' ∉ l.dropWhile jsWhitespace :=
    fun hm => hne ((List.dropWhile_sublist _).subset hm)
  rw [jsParseInt] at h
  rcases hl2 : l.dropWhile jsWhitespace with _ | ⟨c, r⟩
  · rw [hl2] at h
    simp [jsParseIntSign, jsParseIntAbs, decDigitsParse] at h
  · rw [hl2] at h hne2
    have hcm : c ≠ '-' := fun hc => hne2 (hc ▸ List.mem_cons_self _ _)
    simp only [jsParseIntSign, if_neg hcm] at h
    by_cases hcp : c = '+'
    · rw [if_pos hcp] at h
      rcases habs : jsParseIntAbs r with _ | m
      · rw [habs] at h; simp at h
      · rw [habs] at h
        simp only [Option.map_some'] at h
        obtain rfl : (m : Int) = n := by simpa using h
        exact Int.natCast_nonneg m
    · rw [if_neg hcp] at h
      rcases habs : jsParseIntAbs (c :: r) with _ | m
      · rw [habs] at h; simp at h
      · rw [habs] at h
        simp only [Option.map_some'] at h
        obtain rfl : (m : Int) = n := by simpa using h
        exact Int.natCast_nonneg m

end PdfToImage

namespace PdfToImage

/-- Invariant of the `getRanges` scanning loop: starting from an open range
`[start, prev]` with the remaining pages strictly increasing after `prev`,
the emitted ranges are well-formed, separated by genuine gaps, cover
exactly the open range followed by the remaining pages, and the first
emitted range starts at `start`. -/
theorem getRangesGo_spec :
    ∀ (l : List Int) (start prev : Int), start ≤ prev → List.Chain (· < ·) prev l →
      (∀ r ∈ getRangesGo start prev l, r.start ≤ r.stop) ∧
      List.Chain' (fun a b => a.stop + 1 < b.start) (getRangesGo start prev l) ∧
      flattenRanges (getRangesGo start prev l) = intRangeIncl start prev ++ l ∧
      (∀ h ∈ (getRangesGo start prev l).head?, PageRange.start h = start) := by
  intro l
  induction l with
  | nil =>
    intro start prev hsp _
    refine ⟨?_, ?_, ?_, ?_⟩
    · intro r hr
      simp only [getRangesGo, List.mem_singleton] at hr
      simpa [hr] using hsp
    · simp [getRangesGo]
    · simp [getRangesGo, flattenRanges]
    · simp [getRangesGo]
  | cons c cs ih =>
    intro start prev hsp hch
    rw [List.chain_cons] at hch
    obtain ⟨hpc, hch⟩ := hch
    by_cases hc : c = prev + 1
    · subst hc
      have hrec := ih start (prev + 1) (by omega) hch
      have heq : getRangesGo start prev ((prev + 1) :: cs) = getRangesGo start (prev + 1) cs := by
        simp [getRangesGo]
      refine ⟨?_, ?_, ?_, ?_⟩
      · rw [heq]; exact hrec.1
      · rw [heq]; exact hrec.2.1
      · rw [heq, hrec.2.2.1, intRangeIncl_concat (by omega), List.append_assoc]
        rfl
      · rw [heq]; exact hrec.2.2.2
    · have hgap : prev + 1 < c := by omega
      have hrec := ih c c le_rfl hch
      have heq : getRangesGo start prev (c :: cs) =
          ⟨start, prev⟩ :: getRangesGo c c cs := by
        simp [getRangesGo, hc]
      refine ⟨?_, ?_, ?_, ?_⟩
      · rw [heq]
        intro r hr
        rcases List.mem_cons.mp hr with rfl | hr
        · exact hsp
        · exact hrec.1 r hr
      · rw [heq, List.chain'_cons']
        refine ⟨?_, hrec.2.1⟩
        intro h hh
        have := hrec.2.2.2 h hh
        simp only [this]
        omega
      · rw [heq]
        show (List.map _ (⟨start, prev⟩ :: getRangesGo c c cs)).flatten = _
        rw [List.map_cons, List.flatten_cons]
        have : (List.map (fun r => intRangeIncl r.start r.stop) (getRangesGo c c cs)).flatten
            = intRangeIncl c c ++ cs := hrec.2.2.1
        rw [this, intRangeIncl_self]
        rfl
      · rw [heq]
        intro h hh
        simp only [List.head?_cons, Option.mem_some_iff] at hh
        rw [← hh]

/-- The JPG loop of `src/converter.ts` on all-valid pdf2pic results:
if Sharp succeeds on every page the loop returns exactly the input pages
in order; if Sharp fails on some page the loop aborts with an error. -/
theorem jpgLoopTs_spec (sharpOk : Int → Bool) :
    ∀ pairs : List (Int × Bool), (∀ pv ∈ pairs, pv.2 = true) →
      ((∀ pv ∈ pairs, sharpOk pv.1 = true) →
        jpgLoopTs sharpOk pairs = .ok (pairs.map (fun pv => pv.1))) ∧
      ((∃ pv ∈ pairs, sharpOk pv.1 = false) →
        ∃ e, jpgLoopTs sharpOk pairs = .error e) := by
  intro pairs
  induction pairs with
  | nil =>
    intro _
    refine ⟨fun _ => rfl, ?_⟩
    rintro ⟨pv, hpv, _⟩
    exact absurd hpv (List.not_mem_nil pv)
  | cons pv rest ih =>
    intro hvalid
    obtain ⟨p, v⟩ := pv
    have hv : v = true := hvalid (p, v) (List.mem_cons_self _ _)
    subst hv
    have ihrec := ih (fun q hq => hvalid q (List.mem_cons_of_mem _ hq))
    constructor
    · intro hall
      have hp : sharpOk p = true := hall (p, true) (List.mem_cons_self _ _)
      have hrest := ihrec.1 (fun q hq => hall q (List.mem_cons_of_mem _ hq))
      simp [jpgLoopTs, hp, hrest]
    · rintro ⟨q, hq, hqf⟩
      by_cases hp : sharpOk p = true
      · rcases List.mem_cons.mp hq with rfl | hq
        · exact absurd hp (by simp [hqf])
        · obtain ⟨e, he⟩ := ihrec.2 ⟨q, hq, hqf⟩
          refine ⟨e, ?_⟩
          simp [jpgLoopTs, hp, he]
      · refine ⟨.sharpFailed p, ?_⟩
        have hp2 : sharpOk p = false := by simpa using hp
        simp [jpgLoopTs, hp2]

/-- Accumulated pushes of completed page tasks: exactly the successful
pages, in completion order, appended to the accumulator. -/
theorem foldl_pushIfSuccess (outcome : Int → PageOutcome) :
    ∀ (l acc : List Int),
      l.foldl (pushIfSuccess outcome) acc = acc ++ l.filter (fun p => (outcome p).isSuccess) := by
  intro l
  induction l with
  | nil => intro acc; simp
  | cons p l ih =>
    intro acc
    by_cases hp : (outcome p).isSuccess = true
    · rw [List.foldl_cons]
      show List.foldl _ (pushIfSuccess outcome acc p) l = _
      rw [pushIfSuccess, if_pos hp, ih, List.filter_cons, if_pos hp]
      simp
    · rw [List.foldl_cons]
      show List.foldl _ (pushIfSuccess outcome acc p) l = _
      rw [pushIfSuccess, if_neg hp, ih, List.filter_cons, if_neg hp]

/-- The normalization loop pushes to `generatedFiles` and
`convertedPageNums` in the same iteration, so the two lists always have
equal length. -/
theorem normalizeLoop_counts (base : List Char) (fmt : ImgFormat) :
    ∀ (files : List (List Char)) (dir : Dir),
      ((normalizeLoop base fmt files dir).2.1).length
        = ((normalizeLoop base fmt files dir).2.2).length := by
  intro files
  induction files with
  | nil => intro dir; rfl
  | cons file rest ih =>
    intro dir
    simp only [normalizeLoop]
    split
    · split
      · exact ih dir
      · simp only [List.length_cons]
        exact congrArg Nat.succ (ih _)
    · exact ih dir

end PdfToImage

namespace PdfToImage

theorem headD_mem_splitOnChar (sep : Char) (l : List Char) :
    (splitOnChar sep l).headD [] ∈ splitOnChar sep l := by
  rcases h : splitOnChar sep l with _ | ⟨a, t⟩
  · exact absurd h (splitOnChar_ne_nil sep l)
  · simp

theorem getD_mem_splitOnChar (sep : Char) (l : List Char) {i : Nat}
    (hi : i < (splitOnChar sep l).length) :
    (splitOnChar sep l).getD i [] ∈ splitOnChar sep l := by
  rw [List.getD_eq_getElem _ _ hi]
  exact List.getElem_mem _

/-- The split pieces of a hyphenated term contain no hyphen, so `parseInt`
on them cannot see a minus sign: the parsed bound is nonnegative. -/
theorem splitPart_parse_nonneg {trimmed piece : List Char} {s : Int}
    (hp : piece ∈ splitOnChar '-' trimmed)
    (hs : jsParseInt (trimList piece) = some s) : 0 ≤ s := by
  have hnm : '-' ∉ trimList piece :=
    fun hm => not_mem_of_mem_splitOnChar '-' trimmed piece hp (mem_of_mem_trimList hm)
  exact jsParseInt_nonneg hnm hs

/-- Pages contributed by one term of the throwing parser are nonnegative:
a bare term cannot carry a minus sign (it would have been routed to the
range branch), and a range starts at the parse of a hyphen-free piece. -/
theorem parseTermTs_nonneg {part : List Char} {xs : List Int}
    (h : parseTermTs part = .ok xs) : ∀ x ∈ xs, 0 ≤ x := by
  simp only [parseTermTs] at h
  split at h
  · split at h
    · exact absurd h (by simp)
    · split at h
      · exact absurd h (by simp)
      · split at h
        · rename_i s e hs he
          obtain rfl : intRangeIncl s e = xs := by simpa using h
          intro x hx
          have h0 : 0 ≤ s :=
            splitPart_parse_nonneg (headD_mem_splitOnChar '-' _) hs
          exact le_trans h0 (le_of_mem_intRangeIncl hx)
        · exact absurd h (by simp)
  · rename_i hd
    split at h
    · rename_i p hp
      obtain rfl : [p] = xs := by simpa using h
      intro x hx
      obtain rfl : x = p := by simpa using hx
      exact jsParseInt_nonneg hd hp
    · exact absurd h (by simp)

theorem parsePartsTs_nonneg :
    ∀ (parts : List (List Char)) (pages : List Int), parsePartsTs parts = .ok pages →
      ∀ x ∈ pages, 0 ≤ x := by
  intro parts
  induction parts with
  | nil =>
    intro pages h
    obtain rfl : ([] : List Int) = pages := by simpa [parsePartsTs] using h
    simp
  | cons part rest ih =>
    intro pages h
    rw [parsePartsTs] at h
    split at h
    · exact absurd h (by simp)
    · rename_i xs hxs
      split at h
      · exact absurd h (by simp)
      · rename_i ys hys
        obtain rfl : xs ++ ys = pages := by simpa using h
        intro x hx
        rcases List.mem_append.mp hx with hx | hx
        · exact parseTermTs_nonneg hxs x hx
        · exact ih ys hys x hx

/-- Whatever the throwing parser accepts is strictly ascending (hence
duplicate-free): either the all-pages sentinel `[]` or a
dedup-then-sorted list. -/
theorem parsePageRangeTs_sorted {l : List Char} {out : List Int}
    (h : parsePageRangeTs l = .ok out) : out.Sorted (· < ·) := by
  rw [parsePageRangeTs] at h
  split at h
  · obtain rfl : ([] : List Int) = out := by simpa using h
    exact List.sorted_nil
  · split at h
    · exact absurd h (by simp)
    · rename_i pages hpages
      obtain rfl : dedupSort pages = out := by simpa using h
      exact dedupSort_sorted_lt pages

end PdfToImage

namespace PdfToImage

/-! ### Additional helper lemmas for the claims -/

theorem PngOutcome.isThrows_eq_false_of_isOk {o : PngOutcome} (h : o.isOk = true) :
    o.isThrows = false := by
  cases o <;> simp_all [PngOutcome.isOk, PngOutcome.isThrows]

theorem lookupFile_append_self (name : List Char) (c : Nat) :
    ∀ l : Dir, (∀ e ∈ l, e.1 ≠ name) → lookupFile name (l ++ [(name, c)]) = some c := by
  intro l
  induction l with
  | nil => intro _; simp [lookupFile]
  | cons e rest ih =>
    intro h
    have hne : e.1 ≠ name := h e (List.mem_cons_self _ _)
    simp only [List.cons_append, lookupFile, if_neg hne]
    exact ih (fun x hx => h x (List.mem_cons_of_mem _ hx))

theorem popplerResult_invariants_of_nodup (base : List Char) (fmt : ImgFormat)
    (files : List (List Char)) (dir : Dir)
    (hnodup : ((normalizeLoop base fmt files dir).2.2).Nodup) (res : PopplerResult)
    (hres : res = ⟨((normalizeLoop base fmt files dir).2.1).length,
        jsSortAsc ((normalizeLoop base fmt files dir).2.2), fmt⟩) :
    res.imageCount = res.pagesConverted.length ∧ res.pagesConverted.Sorted (· < ·) := by
  subst hres
  refine ⟨?_, jsSortAsc_sorted_lt hnodup⟩
  show ((normalizeLoop base fmt files dir).2.1).length = (jsSortAsc _).length
  rw [jsSortAsc_length]
  exact normalizeLoop_counts base fmt files dir

end PdfToImage

namespace PdfToImage

/-! ### The claims -/

/-- Claim C2: for every valid page-selection expression not equal to
`all`, the throwing parser of `src/converter.ts` returns an ascending,
duplicate-free list of the denoted pages; in particular
`parse("3,1,2,2") = [1,2,3]` and `parse("1-3,7-9") = [1,2,3,7,8,9]`. -/
theorem claim_C2_parse_sorted_dedup :
    (∀ (l : List Char) (out : List Int),
        parsePageRangeTs l = .ok out → out.Sorted (· < ·)) ∧
    parsePageRangeTs (("3,1,2,2").toList) = .ok [1, 2, 3] ∧
    parsePageRangeTs (("1-3,7-9").toList) = .ok [1, 2, 3, 7, 8, 9] :=
  ⟨fun _ _ h => parsePageRangeTs_sorted h, by rfl, by rfl⟩

/-- Witness for C2: the general sortedness statement applied to the
concrete parse of `3,1,2,2`. -/
theorem claim_C2_witness :
    parsePageRangeTs (("3,1,2,2").toList) = .ok [1, 2, 3] ∧
    List.Sorted (· < ·) [(1 : Int), 2, 3] :=
  ⟨claim_C2_parse_sorted_dedup.2.1,
    claim_C2_parse_sorted_dedup.1 _ _ claim_C2_parse_sorted_dedup.2.1⟩

/-- Claim C3: on an ascending duplicate-free page list, `getRanges` yields
ranges with `start ≤ end`, sorted by start and separated by genuine gaps
(hence non-overlapping and each a maximal consecutive run), whose
concatenated expansion is exactly the input list; the empty list yields no
ranges. -/
theorem claim_C3_coalesce_roundtrip (L : List Int) (hL : L.Sorted (· < ·)) :
    (∀ r ∈ getRanges L, r.start ≤ r.stop) ∧
    List.Chain' (fun a b => a.stop + 1 < b.start) (getRanges L) ∧
    flattenRanges (getRanges L) = L ∧
    getRanges ([] : List Int) = [] := by
  cases L with
  | nil => exact ⟨by simp [getRanges, jsSortAsc], by simp [getRanges, jsSortAsc], rfl, rfl⟩
  | cons first rest =>
    have hsort : jsSortAsc (first :: rest) = first :: rest :=
      jsSortAsc_eq_self (hL.le_of_lt)
    have heq : getRanges (first :: rest) = getRangesGo first first rest := by
      rw [getRanges, hsort]
    have hch : List.Chain (· < ·) first rest := List.chain_iff_pairwise.mpr hL
    have hspec := getRangesGo_spec rest first first le_rfl hch
    refine ⟨?_, ?_, ?_, rfl⟩
    · rw [heq]; exact hspec.1
    · rw [heq]; exact hspec.2.1
    · rw [heq, hspec.2.2.1, intRangeIncl_self]
      rfl

/-- Witness for C3 at the concrete selection `[1, 2, 3, 7]`. -/
theorem claim_C3_witness :
    List.Sorted (· < ·) [(1 : Int), 2, 3, 7] ∧
    ((∀ r ∈ getRanges [(1 : Int), 2, 3, 7], r.start ≤ r.stop) ∧
      List.Chain' (fun a b => a.stop + 1 < b.start) (getRanges [(1 : Int), 2, 3, 7]) ∧
      flattenRanges (getRanges [(1 : Int), 2, 3, 7]) = [(1 : Int), 2, 3, 7] ∧
      getRanges ([] : List Int) = []) :=
  ⟨by decide, claim_C3_coalesce_roundtrip _ (by decide)⟩

/-- Claim C7 counterexample: the poppler `parsePageRange` — one of the
cited parse implementations — does not fail on the invalid token `x`; it
silently skips it and returns the remaining pages. -/
theorem claim_C7_counterexample :
    parsePageRangePoppler (("1,x,3").toList) = [1, 3] := by rfl

/-- Claim C7 (amended): the throwing parser of
`src/converter.ts` / `src/converter-fast.ts` fails on a term with no
parseable leading integer with an error naming the offending token
(`parse("1,x,3")` throws `Invalid page number: x`, and every error
message ends with its token); but a term with a parseable leading
integer and trailing garbage is accepted as that integer, and the
poppler parser skips invalid tokens without any error. -/
theorem claim_C7_amended :
    parsePageRangeTs (("1,x,3").toList) = .error (.invalidPageNumber (("x").toList)) ∧
    ParseErr.message (.invalidPageNumber (("x").toList)) = ("Invalid page number: x").toList ∧
    (∀ e : ParseErr, List.IsSuffix (ParseErr.token e) (ParseErr.message e)) ∧
    parsePageRangeTs (("1,2x,3").toList) = .ok [1, 2, 3] := by
  refine ⟨by rfl, by rfl, ?_, by rfl⟩
  intro e
  cases e with
  | invalidRangeFormat t => exact ⟨("Invalid page range format: ").toList, rfl⟩
  | invalidRange t => exact ⟨("Invalid page range: ").toList, rfl⟩
  | invalidPageNumber t => exact ⟨("Invalid page number: ").toList, rfl⟩

/-- Claim C8 counterexample: parsing the expression `0` succeeds with the
nonempty list `[0]` — not the ALL sentinel — which contains a page number
smaller than 1. -/
theorem claim_C8_counterexample :
    parsePageRangeTs (("0").toList) = .ok [0] ∧
    (0 : Int) ∈ [(0 : Int)] ∧ ([(0 : Int)] : List Int) ≠ [] :=
  ⟨by rfl, by simp, by simp⟩

/-- Claim C8 (amended): every page number accepted by the throwing parser
is nonnegative — a minus sign routes the term to the range branch, whose
split pieces cannot contain one — but 0 itself is accepted, so the bound
is 0, not 1. -/
theorem claim_C8_amended :
    ∀ (l : List Char) (out : List Int), parsePageRangeTs l = .ok out →
      ∀ x ∈ out, 0 ≤ x := by
  intro l out h x hx
  rw [parsePageRangeTs] at h
  split at h
  · obtain rfl : ([] : List Int) = out := by simpa using h
    simp at hx
  · split at h
    · exact absurd h (by simp)
    · rename_i pages hpages
      obtain rfl : dedupSort pages = out := by simpa using h
      exact parsePartsTs_nonneg _ _ hpages x ((dedupSort_mem x pages).mp hx)

/-- Witness for C8: the amended bound applied to the parse of `1-3`. -/
theorem claim_C8_witness :
    parsePageRangeTs (("1-3").toList) = .ok [1, 2, 3] ∧
    ∀ x ∈ [(1 : Int), 2, 3], 0 ≤ x :=
  ⟨by rfl, claim_C8_amended (("1-3").toList) [1, 2, 3] (by rfl)⟩

/-- Claim C9 counterexample: `src/converter.ts` compares the raw selector
against the exact literal `all`, so `parse(" all ")` is not the sentinel:
it falls through to term parsing and throws `Invalid page number: all`. -/
theorem claim_C9_counterexample :
    parsePageRangeTs (("all").toList) = .ok [] ∧
    parsePageRangeTs ((" all ").toList) = .error (.invalidPageNumber (("all").toList)) :=
  ⟨by rfl, by rfl⟩

/-- Claim C9 (amended): in `src/converter.ts` the ALL sentinel is produced
only by the exact untrimmed literal; surrounding whitespace makes the call
fail instead. The poppler parser happens to return the sentinel for both
spellings, because the unparseable token `all` is skipped and the empty
result coincides with the sentinel. -/
theorem claim_C9_amended :
    parsePageRangeTs ((" all ").toList) ≠ parsePageRangeTs (("all").toList) ∧
    ParseErr.message (.invalidPageNumber (("all").toList)) =
      ("Invalid page number: all").toList ∧
    parsePageRangePoppler (("all").toList) = [] ∧
    parsePageRangePoppler ((" all ").toList) = [] := by
  refine ⟨?_, by rfl, by rfl, by rfl⟩
  have h1 : parsePageRangeTs ((" all ").toList) =
      .error (.invalidPageNumber (("all").toList)) := by rfl
  have h2 : parsePageRangeTs (("all").toList) = .ok [] := by rfl
  rw [h1, h2]
  intro h
  exact Except.noConfusion h

/-- Claim C10: the ALL sentinel is the empty page list and the converters
branch on emptiness, so the zero-page expression `5-3` is indistinguishable
from `all`: both parsers return `[]` for it, and both converters behave
identically on the two selectors (in particular they rasterize every page
instead of failing with an empty-selection error). -/
theorem claim_C10_empty_selection_is_all :
    parsePageRangeTs (("5-3").toList) = .ok [] ∧
    parsePageRangeTs (("5-3").toList) = parsePageRangeTs (("all").toList) ∧
    parsePageRangePoppler (("5-3").toList) = parsePageRangePoppler (("all").toList) ∧
    (∀ env : TsEnv, convertTs env (("5-3").toList) = convertTs env (("all").toList)) ∧
    (∀ (env : PopplerEnv) (pdfPath : String) (base : List Char) (outPref : String)
        (dpi quality : Nat) (fmt : ImgFormat),
        convertPoppler env pdfPath base outPref ⟨dpi, quality, ("5-3").toList, fmt⟩
          = convertPoppler env pdfPath base outPref ⟨dpi, quality, ("all").toList, fmt⟩) :=
  ⟨by rfl, by rfl, by rfl, fun _ => by rfl, fun _ _ _ _ _ _ _ => by rfl⟩

end PdfToImage

namespace PdfToImage

/-- Claim C1 counterexample: in `convertDirectToJpg` of
`src/converter-fast.ts`, a requested page whose conversion fails is caught
and logged only — here page 2 of the request `[1, 2]` fails, yet the call
returns a successful result reporting one image, with the failed page
silently missing. -/
theorem claim_C1_counterexample :
    convertDirectToJpgSpecific (fun p => if p = 2 then .sharpThrows else .success) [1, 2]
      = { imageCount := 1, pagesConverted := [1], format := "jpg" } ∧
    (2 : Int) ∉ (convertDirectToJpgSpecific
        (fun p => if p = 2 then .sharpThrows else .success) [1, 2]).pagesConverted := by
  refine ⟨by rfl, ?_⟩
  intro h
  rw [show (convertDirectToJpgSpecific
      (fun p => if p = 2 then PageOutcome.sharpThrows else PageOutcome.success)
      [1, 2]).pagesConverted = [1] from rfl] at h
  simp at h

/-- Claim C1 (amended): the pdf2pic converter of `src/converter.ts` never
reports partial success — with valid pdf2pic results, any Sharp failure on
a requested page aborts the whole call with an error, and if every page
succeeds the result contains exactly the requested pages; but
`convertDirectToJpg` of `src/converter-fast.ts` swallows per-page failures
and returns a successful result that omits every failed page. -/
theorem claim_C1_amended :
    (∀ (env : TsEnv) (pagesStr : List Char) (parsed : List Int),
        parsePageRangeTs pagesStr = .ok parsed →
        (∀ p ∈ parsed, (env.png p).isOk = true) →
        ((∃ p ∈ parsed, env.sharpOk p = false) →
            ∃ e, (convertTs env pagesStr).2 = .error e) ∧
          (parsed ≠ [] → (∀ p ∈ parsed, env.sharpOk p = true) →
            (convertTs env pagesStr).2 =
              .ok { imageCount := parsed.length, pagesConverted := parsed })) ∧
    (∀ (outcome : Int → PageOutcome) (order : List Int) (p : Int),
        p ∈ order → (outcome p).isSuccess = false →
        p ∉ (convertDirectToJpgSpecific outcome order).pagesConverted) := by
  constructor
  · intro env pagesStr parsed hparse hpng
    have hthrows : parsed.any (fun p => (env.png p).isThrows) = false := by
      rw [List.any_eq_false]
      intro p hp
      rw [PngOutcome.isThrows_eq_false_of_isOk (hpng p hp)]
      simp
    have hvalid : ∀ pv ∈ parsed.map (fun p => (p, (env.png p).isOk)), pv.2 = true := by
      intro pv hpv
      obtain ⟨p, hp, rfl⟩ := List.mem_map.mp hpv
      exact hpng p hp
    have hspec := jpgLoopTs_spec env.sharpOk (parsed.map (fun p => (p, (env.png p).isOk))) hvalid
    constructor
    · rintro ⟨p, hp, hpf⟩
      have hne : parsed ≠ [] := fun h => by simp [h] at hp
      have hpos : parsed.length > 0 := List.length_pos.mpr hne
      obtain ⟨e, he⟩ := hspec.2 ⟨(p, (env.png p).isOk), List.mem_map_of_mem _ hp, hpf⟩
      refine ⟨e, ?_⟩
      simp only [convertTs, hparse, hpos, if_true, hthrows, he]
      simp
    · intro hne hall
      have hpos : parsed.length > 0 := List.length_pos.mpr hne
      have hok := hspec.1 (by
        intro pv hpv
        obtain ⟨p, hp, rfl⟩ := List.mem_map.mp hpv
        exact hall p hp)
      have hmapfst : (parsed.map (fun p => (p, (env.png p).isOk))).map (fun pv => pv.1)
          = parsed := by
        rw [List.map_map]
        have hcomp : ((fun pv : Int × Bool => pv.1) ∘ fun p : Int => (p, (env.png p).isOk)) = id := rfl
        rw [hcomp, List.map_id]
      rw [hmapfst] at hok
      simp only [convertTs, hparse, hpos, if_true, hthrows, hok]
      simp
  · intro outcome order p hp hfail hmem
    simp only [convertDirectToJpgSpecific] at hmem
    rw [jsSortAsc_mem, foldl_pushIfSuccess, List.nil_append] at hmem
    exact absurd (List.of_mem_filter hmem) (by simp [hfail])

/-- Witness for C1 (amended) at concrete environments: with pages `1,2`
and Sharp failing on page 2 the converter of `src/converter.ts` fails;
with Sharp succeeding everywhere it returns both pages; and the fast
converter drops a failing page 2 from its successful result. -/
theorem claim_C1_witness :
    (∃ e, (convertTs ⟨fun _ => .ok, fun p => p != 2, false, []⟩ (("1,2").toList)).2
        = .error e) ∧
    (convertTs ⟨fun _ => .ok, fun _ => true, false, []⟩ (("1,2").toList)).2
        = .ok { imageCount := 2, pagesConverted := [1, 2] } ∧
    (2 : Int) ∉ (convertDirectToJpgSpecific (fun _ => .sharpThrows) [2]).pagesConverted :=
  ⟨(claim_C1_amended.1 ⟨fun _ => .ok, fun p => p != 2, false, []⟩ (("1,2").toList)
      [1, 2] (by rfl) (by decide)).1 (by decide),
   (claim_C1_amended.1 ⟨fun _ => .ok, fun _ => true, false, []⟩ (("1,2").toList)
      [1, 2] (by rfl) (by decide)).2 (by decide) (by decide),
   claim_C1_amended.2 (fun _ => .sharpThrows) [2] 2 (by decide) (by rfl)⟩

end PdfToImage

namespace PdfToImage

/-- Claim C4: a successful conversion result reports `imageCount` equal to
the length of `pagesConverted`, which is strictly ascending with no
duplicates, regardless of the completion order of the concurrent page
tasks (fast converter) or of the page numbers evidenced by the engine's
output files (poppler converter, whose files carry pairwise distinct page
numbers — one file per page). -/
theorem claim_C4_result_invariants :
    (∀ (outcome : Int → PageOutcome) (pages order : List Int),
        List.Perm order pages → pages.Nodup →
        (convertDirectToJpgSpecific outcome order).imageCount
            = (convertDirectToJpgSpecific outcome order).pagesConverted.length ∧
          (convertDirectToJpgSpecific outcome order).pagesConverted.Sorted (· < ·)) ∧
    (∀ (env : PopplerEnv) (pdfPath : String) (base : List Char) (outPref : String)
        (o : PopplerOpts) (res : PopplerResult),
        ((normalizeLoop base o.fmt (env.dirAfterExec.map (fun e => e.1))
            env.dirAfterExec).2.2).Nodup →
        (convertPoppler env pdfPath base outPref o).2 = .ok res →
        res.imageCount = res.pagesConverted.length ∧
          res.pagesConverted.Sorted (· < ·)) := by
  constructor
  · intro outcome pages order hperm hnodup
    have hnorder : order.Nodup := hperm.nodup_iff.mpr hnodup
    simp only [convertDirectToJpgSpecific]
    rw [foldl_pushIfSuccess, List.nil_append]
    refine ⟨(jsSortAsc_length _).symm, ?_⟩
    exact jsSortAsc_sorted_lt (hnorder.filter _)
  · intro env pdfPath base outPref o res hnodup hres
    simp only [convertPoppler] at hres
    split at hres <;> split at hres
    · exact absurd hres (by simp)
    · exact popplerResult_invariants_of_nodup base o.fmt _ _ hnodup res
        (Except.ok.inj hres).symm
    · exact absurd hres (by simp)
    · exact popplerResult_invariants_of_nodup base o.fmt _ _ hnodup res
        (Except.ok.inj hres).symm

/-- Witness for C4: the fast converter on pages `[1, 2]` completing as
`[2, 1]`, and the poppler converter on the selection `1,3` with the two
engine outputs `test-1.jpg`, `test-3.jpg`. -/
theorem claim_C4_witness :
    (List.Perm [(2 : Int), 1] [(1 : Int), 2] ∧ List.Nodup [(1 : Int), 2] ∧
      (convertDirectToJpgSpecific (fun _ => .success) [2, 1]).imageCount
          = (convertDirectToJpgSpecific (fun _ => .success) [2, 1]).pagesConverted.length ∧
        (convertDirectToJpgSpecific (fun _ => .success) [2, 1]).pagesConverted.Sorted (· < ·)) ∧
    ((convertPoppler ⟨fun _ => true, [((("test-1.jpg").toList), 0), ((("test-3.jpg").toList), 1)]⟩
          "in.pdf" (("test").toList) "out/test" ⟨150, 80, ("1,3").toList, .jpg⟩).2
        = .ok ⟨2, [1, 3], .jpg⟩ ∧
      (2 : Nat) = ([(1 : Int), 3]).length ∧ ([(1 : Int), 3]).Sorted (· < ·)) :=
  ⟨⟨by decide, by decide,
    claim_C4_result_invariants.1 (fun _ => .success) [1, 2] [2, 1] (by decide) (by decide)⟩,
   ⟨by rfl,
    claim_C4_result_invariants.2
      ⟨fun _ => true, [((("test-1.jpg").toList), 0), ((("test-3.jpg").toList), 1)]⟩
      "in.pdf" (("test").toList) "out/test" ⟨150, 80, ("1,3").toList, .jpg⟩
      ⟨2, [1, 3], .jpg⟩ (by decide) (by rfl)⟩⟩

/-- Claim C5 counterexample: the normalization loop of
`src/converter-poppler.ts` renames `doc-1.jpg` onto the already existing
canonical name `doc_page_001.jpg` without any check: the pre-existing file
(content tag 20) is silently replaced by the engine output (content tag
10), the directory shrinks from two entries to one, and the conversion
still returns a successful result. -/
theorem claim_C5_counterexample :
    lookupFile (("doc_page_001.jpg").toList) collisionDir = some 20 ∧
    (normalizeLoop (("doc").toList) ImgFormat.jpg
        (collisionDir.map (fun e => e.1)) collisionDir).1
      = [((("doc_page_001.jpg").toList), 10)] ∧
    (normalizeLoop (("doc").toList) ImgFormat.jpg
        (collisionDir.map (fun e => e.1)) collisionDir).2.2 = [1] ∧
    (convertPoppler ⟨fun _ => true, collisionDir⟩ "in.pdf" (("doc").toList) "out/doc"
        ⟨150, 80, ("1").toList, .jpg⟩).2 = .ok ⟨1, [1], .jpg⟩ :=
  ⟨by rfl, by rfl, by rfl, by rfl⟩

/-- Claim C5 (amended): `fs.rename` is used with no existence check, and
on POSIX it replaces the target atomically: after the rename the target
name always carries the renamed file's content, whether or not a file with
the target name already existed — the conversion does not fail on a
collision. -/
theorem claim_C5_amended (dir : Dir) (oldName newName : List Char) (c : Nat)
    (h : lookupFile oldName dir = some c) :
    lookupFile newName (renameFile dir oldName newName) = some c := by
  rw [renameFile, h]
  apply lookupFile_append_self
  intro e he
  have := List.of_mem_filter he
  simp only [decide_eq_true_eq] at this
  exact this.2

/-- Witness for C5 (amended): renaming the only file of a directory. -/
theorem claim_C5_witness :
    lookupFile (("a").toList) [((("a").toList), 5)] = some 5 ∧
    lookupFile (("b").toList)
        (renameFile [((("a").toList), 5)] (("a").toList) (("b").toList)) = some 5 :=
  ⟨by rfl, claim_C5_amended [((("a").toList), 5)] (("a").toList) (("b").toList) 5 (by rfl)⟩

/-- Claim C6 counterexample: with the unparseable selector `abc` the
poppler converter does not fail at all — its parser yields the empty list,
which is the all-pages sentinel, so `fs.mkdir` runs, a `pdftoppm` process
is launched for the whole document, and the call returns success. -/
theorem claim_C6_counterexample :
    parsePageRangePoppler (("abc").toList) = [] ∧
    (convertPoppler ⟨fun _ => true, []⟩ "in.pdf" (("doc").toList) "out/doc"
        ⟨150, 80, ("abc").toList, .jpg⟩).2 = .ok ⟨0, [], .jpg⟩ ∧
    (convertPoppler ⟨fun _ => true, []⟩ "in.pdf" (("doc").toList) "out/doc"
        ⟨150, 80, ("abc").toList, .jpg⟩).1.cmds
      = ["pdftoppm -jpeg -jpegopt quality=80 -r 150 \"in.pdf\" \"out/doc\""] ∧
    (convertPoppler ⟨fun _ => true, []⟩ "in.pdf" (("doc").toList) "out/doc"
        ⟨150, 80, ("abc").toList, .jpg⟩).1.mkdirCalled = true :=
  ⟨by rfl, by rfl, by rfl, by rfl⟩

/-- Claim C6 (amended): with selector `abc` the pdf2pic converter of
`src/converter.ts` does fail with the invalid-page-number error before any
rasterization is started, but only after `fs.mkdir` has created the output
directory; the poppler converter instead treats `abc` as the all-pages
sentinel and always launches exactly one engine invocation (after its own
`fs.mkdir`). -/
theorem claim_C6_amended :
    (∀ env : TsEnv,
        convertTs env (("abc").toList) =
          ({ mkdirCalled := true, rasterized := false },
            .error (.parseFailed (.invalidPageNumber (("abc").toList))))) ∧
    (∀ (env : PopplerEnv) (pdfPath : String) (base : List Char) (outPref : String)
        (dpi quality : Nat) (fmt : ImgFormat),
        (convertPoppler env pdfPath base outPref
            ⟨dpi, quality, ("abc").toList, fmt⟩).1.mkdirCalled = true ∧
          (convertPoppler env pdfPath base outPref
            ⟨dpi, quality, ("abc").toList, fmt⟩).1.cmds.length = 1) := by
  constructor
  · intro env
    rfl
  · intro env pdfPath base outPref dpi quality fmt
    constructor
    · simp only [convertPoppler]
      split <;> split <;> rfl
    · simp only [convertPoppler]
      split
      · split <;> rfl
      · next h => exact absurd (by rfl) h

end PdfToImage
